import Mathlib

/-!
Shallow embedding of the thor manager-orchestration core: the bounded TTL
cache with its package-level statistics counters (cache/types.go), the
shared State and prompt composer (state/state.go, state/prompt.go), and
the engine pipeline with its manager registry (engine/engine.go,
engine/options.go).

Modelling conventions: Go maps are association lists in insertion order
(Go map iteration order is unspecified; the list order stands for one
admissible iteration order), Go time.Time instants are naturals, and the
external collaborators that are not part of this repository (the
actor/session/fragment stores behind the gorm layer, and Go's
html/template engine used by the prompt composer) appear as explicit
parameters of the functions that call them.
-/

/-- Go map assignment m[k] = v on a map modelled as an association list:
replace the binding in place when the key is present, append otherwise. -/
def assocSet {β : Type} : List (String × β) → String → β → List (String × β)
  | [], k, v => [(k, v)]
  | (k', v') :: rest, k, v =>
    if k' = k then (k, v) :: rest else (k', v') :: assocSet rest k v

/-- Go map lookup m[k]. -/
def assocGet {β : Type} : List (String × β) → String → Option β
  | [], _ => none
  | (k', v) :: rest, k => if k' = k then some v else assocGet rest k

/-- Go map delete(m, k): keys are unique, so removing the first binding
removes the binding. -/
def assocErase {β : Type} : List (String × β) → String → List (String × β)
  | [], _ => []
  | (k', v) :: rest, k => if k' = k then rest else (k', v) :: assocErase rest k

/-- db.Actor (db/types.go): a participant identity. Timestamps are kept
out of the model; they play no role in the orchestration core. -/
structure Actor where
  aid : String
  name : String
  assistant : Bool
deriving DecidableEq

/-- db.Session (db/types.go): a conversation thread identity. -/
structure Session where
  sid : String
deriving DecidableEq

/-- db.Fragment (db/types.go): a unit of conversation content. Metadata and
the pgvector embedding are opaque to the orchestration core and are kept as
plain values; CreatedAt/UpdatedAt/DeletedAt are natural-number instants. -/
structure Fragment where
  fid : String
  actorID : String
  sessionID : String
  content : String
  metadata : Option String
  embedding : List Int
  actor : Option Actor
  session : Option Session
  createdAt : Nat
  updatedAt : Nat
  deletedAt : Option Nat
deriving DecidableEq

/-- llm.Role (llm types). -/
inductive Role where
  | system
  | user
  | assistant
  | tool
deriving DecidableEq

/-- llm.Message: a role-tagged message; the optional tool call is a
(name, arguments) pair. -/
structure Message where
  role : Role
  content : String
  name : String
  toolCall : Option (String × String)
deriving DecidableEq

/-- The opaque interface values stored in State maps and handed to the
template engine. One constructor per shape the core actually stores:
strings, numbers, the exported State fields. -/
inductive Value where
  | vStr : String → Value
  | vNat : Nat → Value
  | vFragOpt : Option Fragment → Value
  | vActorOpt : Option Actor → Value
  | vFrags : List Fragment → Value
  | vStrs : List String → Value
deriving DecidableEq

/-- state.State (part of package state): the per-request shared context.
Tool descriptors are opaque and modelled by their names. -/
structure State where
  input : Option Fragment
  output : Option Fragment
  actor : Option Actor
  recentInteractions : List Fragment
  relevantInteractions : List Fragment
  tools : List String
  managerData : List (String × Value)
  customData : List (String × Value)
deriving DecidableEq

/-- state.NewState: empty data stores, nil fragments and actor. -/
def newState : State :=
  { input := none, output := none, actor := none, recentInteractions := []
  , relevantInteractions := [], tools := [], managerData := [], customData := [] }

/-- state.State.GetManagerData (state/state.go). -/
def State.getManagerData (s : State) (key : String) : Option Value :=
  assocGet s.managerData key

/-- state.State.AddManagerData (state/state.go): insert every entry of the
batch into the manager-data map. -/
def State.addManagerData (s : State) (data : List (String × Value)) : State :=
  { s with managerData := data.foldl (fun acc kv => assocSet acc kv.1 kv.2) s.managerData }

/-- state.State.AddCustomData (state/state.go). -/
def State.addCustomData (s : State) (key : String) (value : Value) : State :=
  { s with customData := assocSet s.customData key value }

/-- state.State.GetCustomData (state/state.go). -/
def State.getCustomData (s : State) (key : String) : Option Value :=
  assocGet s.customData key

/-- state.State.Reset (state/state.go): both maps are replaced by fresh
empty maps; no other field is touched. -/
def State.reset (s : State) : State :=
  { s with managerData := [], customData := [] }

/-- state.PromptSection (state types). -/
structure PromptSection where
  role : Role
  template : String
  name : String
deriving DecidableEq

/-- state.PromptBuilder (state types): helper functions are opaque, so the
helpers map is modelled by the list of registered helper names. -/
structure PromptBuilder where
  state : State
  sections : List PromptSection
  stateData : List (String × Value)
  helpers : List String
  err : Option String
deriving DecidableEq

/-- state.NewPromptBuilder (state/prompt.go). -/
def newPromptBuilder (s : State) : PromptBuilder :=
  { state := s, sections := [], stateData := [], helpers := [], err := none }

/-- state.PromptBuilder.WithHelper (state/prompt.go): no-op under a sticky
error, otherwise registers the helper name (map assignment). -/
def PromptBuilder.withHelper (tb : PromptBuilder) (name : String) : PromptBuilder :=
  if tb.err.isSome then tb
  else if name ∈ tb.helpers then tb else { tb with helpers := tb.helpers ++ [name] }

/-- state.PromptBuilder.AddSectionWithName (state/prompt.go). -/
def PromptBuilder.addSectionWithName (tb : PromptBuilder) (role : Role)
    (templateText name : String) : PromptBuilder :=
  if tb.err.isSome then tb
  else { tb with sections := tb.sections ++ [⟨role, templateText, name⟩] }

/-- state.PromptBuilder.AddSection (state/prompt.go). -/
def PromptBuilder.addSection (tb : PromptBuilder) (role : Role) (templateText : String) : PromptBuilder :=
  tb.addSectionWithName role templateText ""

/-- state.PromptBuilder.AddSystemSection (state/prompt.go). -/
def PromptBuilder.addSystemSection (tb : PromptBuilder) (templateText : String) : PromptBuilder :=
  tb.addSection Role.system templateText

/-- state.PromptBuilder.AddUserSection (state/prompt.go). -/
def PromptBuilder.addUserSection (tb : PromptBuilder) (templateText name : String) : PromptBuilder :=
  tb.addSectionWithName Role.user templateText name

/-- state.PromptBuilder.AddAssistantSection (state/prompt.go). -/
def PromptBuilder.addAssistantSection (tb : PromptBuilder) (templateText : String) : PromptBuilder :=
  tb.addSection Role.assistant templateText

/-- state.PromptBuilder.WithManagerData (state/prompt.go): no-op under a
sticky error; a missing key sets the sticky error; otherwise the value is
copied into the builder's private binding set. -/
def PromptBuilder.withManagerData (tb : PromptBuilder) (key : String) : PromptBuilder :=
  if tb.err.isSome then tb
  else
    match tb.state.getManagerData key with
    | none => { tb with err := some ("manager data for key " ++ key ++ " not found") }
    | some v => { tb with stateData := assocSet tb.stateData key v }

/-- state.PromptBuilder.WithManagerDataBatch (state/prompt.go). -/
def PromptBuilder.withManagerDataBatch (tb : PromptBuilder) (keys : List String) : PromptBuilder :=
  keys.foldl (fun b k => b.withManagerData k) tb

/-- state.PromptBuilder.WithTools (state/prompt.go): appends to the shared
State's tool list; note the source performs no sticky-error check here. -/
def PromptBuilder.withTools (tb : PromptBuilder) (tools : List String) : PromptBuilder :=
  { tb with state := { tb.state with tools := tb.state.tools ++ tools } }

/-- The data map Compose assembles for every section: the exported State
fields in declaration order (the source enumerates them by reflection),
then the collected manager data, then the custom data; later assignments
overwrite earlier ones exactly as Go map assignment does. -/
def stateFieldData (s : State) : List (String × Value) :=
  [ ("Input", Value.vFragOpt s.input)
  , ("Output", Value.vFragOpt s.output)
  , ("Actor", Value.vActorOpt s.actor)
  , ("RecentInteractions", Value.vFrags s.recentInteractions)
  , ("RelevantInteractions", Value.vFrags s.relevantInteractions)
  , ("Tools", Value.vStrs s.tools) ]

/-- The per-section binding context of state.PromptBuilder.Compose. -/
def buildData (tb : PromptBuilder) : List (String × Value) :=
  let d1 := (stateFieldData tb.state).foldl (fun acc kv => assocSet acc kv.1 kv.2) []
  let d2 := tb.stateData.foldl (fun acc kv => assocSet acc kv.1 kv.2) d1
  tb.state.customData.foldl (fun acc kv => assocSet acc kv.1 kv.2) d2

/-- Errors Compose can return: the sticky builder error, a template-parse
failure (the source does not include the role in this message), or a
template-execution failure tagged with the section role. -/
inductive ComposeError where
  | sticky : String → ComposeError
  | parseError : String → ComposeError
  | execError : Role → String → ComposeError
deriving DecidableEq

/-- The role named by a Compose error, when it names one. -/
def composeErrorRole : ComposeError → Option Role
  | ComposeError.execError r _ => some r
  | _ => none

/-- One loop iteration of Compose: parse the section template (with the
registered helpers), execute it against the binding context, and emit the
role-tagged message. The template engine (Go's html/template, external to
this repository) is the pair of parameters parse/exec. -/
def renderSection {PT : Type} (parse : List String → String → Except String PT)
    (exec : PT → List (String × Value) → Except String String)
    (helpers : List String) (data : List (String × Value))
    (sec : PromptSection) : Except ComposeError Message :=
  match parse helpers sec.template with
  | Except.error msg => Except.error (ComposeError.parseError msg)
  | Except.ok t =>
    match exec t data with
    | Except.error msg => Except.error (ComposeError.execError sec.role msg)
    | Except.ok text => Except.ok ⟨sec.role, text, sec.name, none⟩

/-- The Compose loop over the section list: the first failing section
aborts the whole composition with its error and no messages. -/
def composeSections {PT : Type} (parse : List String → String → Except String PT)
    (exec : PT → List (String × Value) → Except String String)
    (helpers : List String) (data : List (String × Value)) :
    List PromptSection → Except ComposeError (List Message)
  | [] => Except.ok []
  | sec :: rest =>
    match renderSection parse exec helpers data sec with
    | Except.error e => Except.error e
    | Except.ok msg =>
      match composeSections parse exec helpers data rest with
      | Except.error e => Except.error e
      | Except.ok msgs => Except.ok (msg :: msgs)

/-- state.PromptBuilder.Compose (state/prompt.go): fails immediately on a
sticky error, otherwise renders every section in order. -/
def PromptBuilder.compose {PT : Type} (tb : PromptBuilder)
    (parse : List String → String → Except String PT)
    (exec : PT → List (String × Value) → Except String String) :
    Except ComposeError (List Message) :=
  match tb.err with
  | some msg => Except.error (ComposeError.sticky msg)
  | none => composeSections parse exec tb.helpers (buildData tb) tb.sections

/-- Whether an Except value is a success. -/
def isOkE {ε σ : Type} : Except ε σ → Bool
  | Except.ok _ => true
  | Except.error _ => false

/-- cache.CacheEntry (cache/types.go). -/
structure CacheEntry (α : Type) where
  value : α
  expiration : Nat
deriving DecidableEq

/-- The package-level statistics counters of package cache
(cache/types.go): hits, misses and evicted are vars shared by every Cache
instance in the process, so they are threaded separately from any one
instance. -/
structure CacheGlobals where
  hits : Nat
  misses : Nat
  evicted : Nat
deriving DecidableEq

/-- cache.CacheStats (cache/types.go). -/
structure CacheStats where
  size : Nat
  hits : Nat
  misses : Nat
  evicted : Nat
deriving DecidableEq

/-- cache.Cache (cache/types.go): the entry table, capacity and per-entry
TTL; the sweep context is not part of the entry-table semantics. -/
structure Cache (α : Type) where
  items : List (String × CacheEntry α)
  maxSize : Nat
  ttl : Nat
deriving DecidableEq

/-- cache.New (cache/types.go): empty table with the configured bounds. -/
def Cache.create (maxSize ttl : Nat) {α : Type} : Cache α :=
  { items := [], maxSize := maxSize, ttl := ttl }

/-- The scan of cache.Cache.evictOldest: Go keeps the first entry (in
iteration order) whose expiration is strictly before the best seen so far;
the None accumulator is the IsZero sentinel of the source. -/
def oldestAcc {α : Type} (acc : Option (String × Nat)) :
    List (String × CacheEntry α) → Option (String × Nat)
  | [] => acc
  | (k, e) :: rest =>
    match acc with
    | none => oldestAcc (some (k, e.expiration)) rest
    | some (k', t') =>
      if e.expiration < t' then oldestAcc (some (k, e.expiration)) rest
      else oldestAcc (some (k', t')) rest

/-- cache.Cache.evictOldest (cache/types.go): delete the entry with the
earliest expiration, if any, and count one eviction on the shared
counters. -/
def evictOldestItems {α : Type} (items : List (String × CacheEntry α))
    (g : CacheGlobals) : List (String × CacheEntry α) × CacheGlobals :=
  match oldestAcc none items with
  | none => (items, g)
  | some kt => (assocErase items kt.1, { g with evicted := g.evicted + 1 })

/-- cache.Cache.Set (cache/types.go): evict the oldest entry when the table
is at or above capacity, then stamp the new entry with now + TTL. -/
def Cache.set {α : Type} (c : Cache α) (key : String) (value : α) (now : Nat)
    (g : CacheGlobals) : Cache α × CacheGlobals :=
  let ig := if c.maxSize ≤ c.items.length then evictOldestItems c.items g else (c.items, g)
  ({ c with items := assocSet ig.1 key ⟨value, now + c.ttl⟩ }, ig.2)

/-- cache.Cache.Get (cache/types.go): a missing or already-expired key
counts a miss on the shared counters; otherwise a hit. Expired entries are
not removed here. -/
def Cache.get {α : Type} (c : Cache α) (key : String) (now : Nat)
    (g : CacheGlobals) : Option α × CacheGlobals :=
  match assocGet c.items key with
  | none => (none, { g with misses := g.misses + 1 })
  | some e =>
    if e.expiration < now then (none, { g with misses := g.misses + 1 })
    else (some e.value, { g with hits := g.hits + 1 })

/-- cache.Cache.Delete (cache/types.go). -/
def Cache.delete {α : Type} (c : Cache α) (key : String) : Cache α :=
  { c with items := assocErase c.items key }

/-- cache.Cache.Clear (cache/types.go). -/
def Cache.clear {α : Type} (c : Cache α) : Cache α :=
  { c with items := [] }

/-- cache.Cache.GetStats (cache/types.go): the size is this instance's, the
counters are read from the shared package-level vars. -/
def Cache.getStats {α : Type} (c : Cache α) (g : CacheGlobals) : CacheStats :=
  { size := c.items.length, hits := g.hits, misses := g.misses, evicted := g.evicted }

/-- One pass of the cache.Cache.cleanup sweep body: remove every expired
entry, counting one eviction each on the shared counters. -/
def cleanupPass {α : Type} (items : List (String × CacheEntry α)) (now : Nat)
    (g : CacheGlobals) : List (String × CacheEntry α) × CacheGlobals :=
  match items with
  | [] => ([], g)
  | (k, e) :: rest =>
    let r := cleanupPass rest now g
    if e.expiration < now then (r.1, { r.2 with evicted := r.2.evicted + 1 })
    else ((k, e) :: r.1, r.2)

/-- A sequence of Set calls, each with its own key, value and instant. -/
def setSeq {α : Type} (c : Cache α) (g : CacheGlobals) :
    List (String × α × Nat) → Cache α × CacheGlobals
  | [] => (c, g)
  | (k, v, t) :: rest =>
    let cg := c.set k v t g
    setSeq cg.1 cg.2 rest

/-- manager.Manager as the engine sees it: an identifier, declared
dependencies, and the outcome of its two pipeline callbacks for the
request under consideration (manager/manager.go). -/
structure Manager where
  id : String
  dependencies : List String
  processOk : Bool
  postProcessOk : Bool
deriving DecidableEq

/-- The error taxonomy of the engine paths under study, one constructor per
distinct fmt.Errorf shape in engine/engine.go and engine/options.go. The
Process-phase manager error carries no identifier: errgroup surfaces the
first error chronologically, which the model leaves unattributed. -/
inductive EngineError where
  | resolutionError : String → EngineError
  | nilInputCrash : EngineError
  | processPhaseError : EngineError
  | managerExecutionError : String → EngineError
  | persistenceError : EngineError
  | duplicateManager : String → EngineError
  | unsatisfiedDependency : String → String → EngineError
  | orderUnknownManager : String → EngineError
deriving DecidableEq

/-- The Engine record. Its struct declaration is not among the provided
sources; the fields here are the ones engine/engine.go and
engine/options.go read and write, with the external actor/session stores
modelled as lookup functions (GetByID returns entity-or-nil on success,
per the store contract) and the fragment store's Upsert outcome as a
flag. -/
structure Engine where
  managers : List Manager
  managerOrder : List String
  actorStore : String → Except Unit (Option Actor)
  sessionStore : String → Except Unit (Option Session)
  upsertOk : Bool

/-- engine.Engine.createFragmentCopy (engine/engine.go): a field-by-field
copy carrying the resolved actor and session references. -/
def createFragmentCopy (fragment : Fragment) (actor : Option Actor)
    (session : Option Session) : Fragment :=
  { fragment with actor := actor, session := session }

/-- What one call of engine.Engine.Process leaves behind: the final state,
the fragments written to the interaction fragment store (in order), and
the returned error, if any. -/
structure ProcessOutcome where
  state : State
  persisted : List Fragment
  error : Option EngineError
deriving DecidableEq

/-- engine.Engine.Process (engine/engine.go): resolve actor and session,
replace State.Input with the enriched copy, run every manager's Process
(all run to completion; the phase fails when any of them failed), then
persist the enriched copy. A nil Input dereferences a nil pointer in the
source, modelled as the nilInputCrash outcome. -/
def Engine.process (e : Engine) (st : State) : ProcessOutcome :=
  match st.input with
  | none => { state := st, persisted := [], error := some EngineError.nilInputCrash }
  | some input =>
    match e.actorStore input.actorID with
    | Except.error _ => { state := st, persisted := [], error := some (EngineError.resolutionError "actor") }
    | Except.ok actor =>
      match e.sessionStore input.sessionID with
      | Except.error _ => { state := st, persisted := [], error := some (EngineError.resolutionError "session") }
      | Except.ok session =>
        let inputCopy := createFragmentCopy input actor session
        let st' := { st with input := some inputCopy }
        if e.managers.all (fun m => m.processOk) then
          if e.upsertOk then { state := st', persisted := [inputCopy], error := none }
          else { state := st', persisted := [], error := some EngineError.persistenceError }
        else { state := st', persisted := [], error := some EngineError.processPhaseError }

/-- The managerMap of engine.Engine.executeManagersInOrder: a Go map built
by successive assignment, so a later manager with the same identifier
overwrites an earlier one. -/
def buildManagerMap (ms : List Manager) : List (String × Manager) :=
  ms.foldl (fun acc m => assocSet acc m.id m) []

/-- The loop of engine.Engine.executeManagersInOrder: identifiers absent
from the map are skipped silently; the first failing manager stops the
loop with its tagged error. The returned list records which managers were
invoked, in order. -/
def runManagersInOrder (mmap : List (String × Manager)) :
    List String → List String × Option EngineError
  | [] => ([], none)
  | mid :: rest =>
    match assocGet mmap mid with
    | none => runManagersInOrder mmap rest
    | some m =>
      if m.postProcessOk then
        let tr := runManagersInOrder mmap rest
        (mid :: tr.1, tr.2)
      else ([mid], some (EngineError.managerExecutionError mid))

/-- The resolved execution order of engine.Engine.executeManagersInOrder:
the explicit managerOrder when one is set, else registration order. -/
def Engine.effectiveOrder (e : Engine) : List String :=
  if e.managerOrder.isEmpty then e.managers.map (fun m => m.id) else e.managerOrder

/-- engine.Engine.executeManagersInOrder (engine/engine.go). -/
def Engine.executeManagersInOrder (e : Engine) : List String × Option EngineError :=
  runManagersInOrder (buildManagerMap e.managers) e.effectiveOrder

/-- What one call of engine.Engine.PostProcess leaves behind: the final
state, the identifiers whose PostProcess ran (in order), the fragments
written to the interaction fragment store, and the returned error. -/
structure PostProcessOutcome where
  state : State
  trace : List String
  persisted : List Fragment
  error : Option EngineError
deriving DecidableEq

/-- engine.Engine.PostProcess (engine/engine.go): resolve actor and
session for the response, set State.Output to the enriched copy, run the
managers in the resolved order stopping at the first failure, then persist
the response fragment (the original, as in the source). -/
def Engine.postProcess (e : Engine) (response : Fragment) (st : State) : PostProcessOutcome :=
  match e.actorStore response.actorID with
  | Except.error _ =>
    { state := st, trace := [], persisted := [], error := some (EngineError.resolutionError "actor") }
  | Except.ok actor =>
    match e.sessionStore response.sessionID with
    | Except.error _ =>
      { state := st, trace := [], persisted := [], error := some (EngineError.resolutionError "session") }
    | Except.ok session =>
      let responseCopy := createFragmentCopy response actor session
      let st' := { st with output := some responseCopy }
      let tr := e.executeManagersInOrder
      match tr.2 with
      | some err => { state := st', trace := tr.1, persisted := [], error := some err }
      | none =>
        if e.upsertOk then { state := st', trace := tr.1, persisted := [response], error := none }
        else { state := st', trace := tr.1, persisted := [], error := some EngineError.persistenceError }

/-- Whether the loop of executeManagersInOrder treats the identifier as
passing: unregistered identifiers are skipped (hence pass), registered
ones pass exactly when their PostProcess succeeds. -/
def mgrOk (mmap : List (String × Manager)) (i : String) : Bool :=
  match assocGet mmap i with
  | none => true
  | some m => m.postProcessOk

/-- Whether the identifier is registered in the manager map. -/
def mgrReg (mmap : List (String × Manager)) (i : String) : Bool :=
  (assocGet mmap i).isSome

/-- The duplicate scan of engine.WithManagers: walk the sequence keeping
the identifiers already seen and report the first repeated one. -/
def findDup : List Manager → List String → Option String
  | [], _ => none
  | m :: rest, seen => if m.id ∈ seen then some m.id else findDup rest (m.id :: seen)

/-- The first declared dependency not present among the given identifiers. -/
def firstMissing (ids : List String) : List String → Option String
  | [] => none
  | d :: ds => if d ∈ ids then firstMissing ids ds else some d

/-- The dependency scan of engine.WithManagers: the first manager with a
dependency outside the registered identifier set, with that dependency. -/
def findMissingDep (ids : List String) : List Manager → Option (String × String)
  | [] => none
  | m :: rest =>
    match firstMissing ids m.dependencies with
    | some d => some (m.id, d)
    | none => findMissingDep ids rest

/-- engine.WithManagers (engine/options.go): reject a duplicate identifier,
then reject an unsatisfied dependency, else store the managers. -/
def withManagers (ms : List Manager) (e : Engine) : Except EngineError Engine :=
  match findDup ms [] with
  | some i => Except.error (EngineError.duplicateManager i)
  | none =>
    match findMissingDep (ms.map (fun m => m.id)) ms with
    | some md => Except.error (EngineError.unsatisfiedDependency md.1 md.2)
    | none => Except.ok { e with managers := ms }

/-- engine.WithManagerOrder (engine/options.go): every identifier in the
order must be registered; nothing requires every registered manager to be
listed. -/
def withManagerOrder (order : List String) (e : Engine) : Except EngineError Engine :=
  match firstMissing (e.managers.map (fun m => m.id)) order with
  | some i => Except.error (EngineError.orderUnknownManager i)
  | none => Except.ok { e with managerOrder := order }

/-- engine.Engine.AddManager (engine/engine.go): re-validate the duplicate
and dependency conditions against the current set, then append. -/
def Engine.addManager (e : Engine) (nm : Manager) : Except EngineError Engine :=
  if nm.id ∈ e.managers.map (fun m => m.id) then
    Except.error (EngineError.duplicateManager nm.id)
  else
    match firstMissing (e.managers.map (fun m => m.id)) nm.dependencies with
    | some d => Except.error (EngineError.unsatisfiedDependency nm.id d)
    | none => Except.ok { e with managers := e.managers ++ [nm] }

/-- A concrete fragment for the closed scenarios below. -/
def sampleFragment : Fragment :=
  { fid := "frag-1", actorID := "actor-1", sessionID := "sess-1", content := "hello"
  , metadata := none, embedding := [], actor := none, session := none
  , createdAt := 0, updatedAt := 0, deletedAt := none }

/-- A concrete actor for the closed scenarios below. -/
def sampleActor : Actor := { aid := "actor-1", name := "Alice", assistant := false }

/-- A concrete session for the closed scenarios below. -/
def sampleSession : Session := { sid := "sess-1" }

/-- A state carrying one manager-data binding. -/
def sampleState : State := { newState with managerData := [("k1", Value.vStr "hello")] }

/-- A builder over sampleState with two sections and one collected
binding. -/
def sampleBuilder : PromptBuilder :=
  (((newPromptBuilder sampleState).addSystemSection "k1").addUserSection
    "plain" "bob").withManagerData "k1"

/-- A builder over sampleState whose second section's template the
failing engine below rejects. -/
def sampleBuilder2 : PromptBuilder :=
  ((newPromptBuilder sampleState).addSystemSection "k1").addUserSection "boom" "bob"

/-- A trivial template engine for the closed scenarios: parsing returns
the template text unchanged. -/
def echoParse (helpers : List String) (t : String) : Except String String := Except.ok t

/-- Execution that substitutes the text's binding when the whole template
names a string binding, and otherwise echoes the text. -/
def lookupExec (t : String) (data : List (String × Value)) : Except String String :=
  match assocGet data t with
  | some (Value.vStr s) => Except.ok s
  | _ => Except.ok t

/-- A template engine whose parser rejects every template. -/
def failParse (helpers : List String) (t : String) : Except String String :=
  Except.error "unclosed action"

/-- Execution that fails on one specific template text. -/
def failExecOn (bad : String) (t : String) (data : List (String × Value)) :
    Except String String :=
  if t = bad then Except.error "helper failed" else Except.ok t

/-- A manager whose callbacks both succeed. -/
def mgrA : Manager := { id := "alpha", dependencies := [], processOk := true, postProcessOk := true }

/-- A manager whose PostProcess fails. -/
def mgrB : Manager := { id := "beta", dependencies := [], processOk := true, postProcessOk := false }

/-- Another manager whose callbacks both succeed. -/
def mgrC : Manager := { id := "gamma", dependencies := [], processOk := true, postProcessOk := true }

/-- A manager depending on mgrA's identifier. -/
def mgrDep : Manager :=
  { id := "delta", dependencies := ["alpha"], processOk := true, postProcessOk := true }

/-- A manager with an unsatisfiable dependency. -/
def mgrBad : Manager :=
  { id := "omega", dependencies := ["zeta"], processOk := true, postProcessOk := true }

/-- A manager whose Process fails. -/
def mgrFail : Manager :=
  { id := "failing", dependencies := [], processOk := false, postProcessOk := true }

/-- An engine with no managers whose stores resolve nothing and accept
writes. -/
def engineBlank : Engine :=
  { managers := [], managerOrder := []
  , actorStore := fun _ => Except.ok none
  , sessionStore := fun _ => Except.ok none
  , upsertOk := true }

/-- An engine whose stores resolve every identifier but whose fragment
store rejects the write. -/
def engineStoreDown : Engine :=
  { managers := [], managerOrder := []
  , actorStore := fun _ => Except.ok (some sampleActor)
  , sessionStore := fun _ => Except.ok (some sampleSession)
  , upsertOk := false }

/-- A three-manager engine with an explicit order; the second manager in
the order fails its PostProcess. -/
def engineThree : Engine :=
  { managers := [mgrA, mgrB, mgrC], managerOrder := ["alpha", "beta", "gamma"]
  , actorStore := fun _ => Except.ok (some sampleActor)
  , sessionStore := fun _ => Except.ok (some sampleSession)
  , upsertOk := true }

/-- A two-manager engine with no explicit order. -/
def engineTwo : Engine :=
  { managers := [mgrA, mgrC], managerOrder := []
  , actorStore := fun _ => Except.ok (some sampleActor)
  , sessionStore := fun _ => Except.ok (some sampleSession)
  , upsertOk := true }

/-- An engine holding one failing-Process manager. -/
def engineFailing : Engine :=
  { managers := [mgrA, mgrFail], managerOrder := []
  , actorStore := fun _ => Except.ok (some sampleActor)
  , sessionStore := fun _ => Except.ok (some sampleSession)
  , upsertOk := true }

theorem assocGet_eq_none_iff {β : Type} (l : List (String × β)) (k : String) :
    assocGet l k = none ↔ ∀ p ∈ l, p.1 ≠ k := by
  induction l with
  | nil => simp [assocGet]
  | cons hd tl ih =>
    obtain ⟨k', v⟩ := hd
    by_cases h : k' = k
    · subst h
      simp [assocGet]
    · simp [assocGet, h, ih]

theorem assocSet_of_not_mem {β : Type} (l : List (String × β)) (k : String) (v : β)
    (h : ∀ p ∈ l, p.1 ≠ k) : assocSet l k v = l ++ [(k, v)] := by
  induction l with
  | nil => rfl
  | cons hd tl ih =>
    obtain ⟨k', v'⟩ := hd
    have hk : k' ≠ k := h (k', v') (by simp)
    simp only [assocSet, if_neg hk, List.cons_append, List.cons.injEq, true_and]
    exact ih (fun p hp => h p (by simp [hp]))

theorem assocSet_length_le {β : Type} (l : List (String × β)) (k : String) (v : β) :
    (assocSet l k v).length ≤ l.length + 1 := by
  induction l with
  | nil => simp [assocSet]
  | cons hd tl ih =>
    obtain ⟨k', v'⟩ := hd
    by_cases h : k' = k
    · simp [assocSet, h]
    · simp only [assocSet, if_neg h, List.length_cons]
      omega

theorem assocErase_length_le {β : Type} (l : List (String × β)) (k : String) :
    (assocErase l k).length ≤ l.length := by
  induction l with
  | nil => simp [assocErase]
  | cons hd tl ih =>
    obtain ⟨k', v'⟩ := hd
    by_cases h : k' = k
    · simp [assocErase, h]
    · simp only [assocErase, if_neg h, List.length_cons]
      omega

theorem assocErase_length_of_mem {β : Type} (l : List (String × β)) (k : String)
    (h : ∃ p ∈ l, p.1 = k) : (assocErase l k).length + 1 = l.length := by
  induction l with
  | nil => simp at h
  | cons hd tl ih =>
    obtain ⟨k', v'⟩ := hd
    by_cases hk : k' = k
    · simp [assocErase, hk]
    · have h' : ∃ p ∈ tl, p.1 = k := by
        obtain ⟨p, hp, hpk⟩ := h
        rcases List.mem_cons.mp hp with heq | hmem
        · exact absurd (by rw [heq] at hpk; exact hpk) hk
        · exact ⟨p, hmem, hpk⟩
      have hlen := ih h'
      simp only [assocErase, if_neg hk, List.length_cons]
      omega

/-- C8: State.Reset empties both data maps — every subsequent lookup in
either map returns not-found — while the Input, Output and Actor fields of
the same State are unchanged. -/
theorem c8_reset_clears_maps_only (st : State) (k1 k2 : String) :
    (st.reset).getManagerData k1 = none
    ∧ (st.reset).getCustomData k2 = none
    ∧ (st.reset).input = st.input
    ∧ (st.reset).output = st.output
    ∧ (st.reset).actor = st.actor :=
  ⟨rfl, rfl, rfl, rfl, rfl⟩

theorem oldestAcc_acc_spec {α : Type} :
    ∀ (l : List (String × CacheEntry α)) (k : String) (t : Nat),
    ∃ kt : String × Nat, oldestAcc (some (k, t)) l = some kt
      ∧ ((kt.1 = k ∧ kt.2 = t) ∨ ∃ p ∈ l, p.1 = kt.1 ∧ p.2.expiration = kt.2)
      ∧ kt.2 ≤ t ∧ ∀ p ∈ l, kt.2 ≤ p.2.expiration := by
  intro l
  induction l with
  | nil =>
    intro k t
    exact ⟨(k, t), rfl, Or.inl ⟨rfl, rfl⟩, le_refl t, by simp⟩
  | cons hd tl ih =>
    intro k t
    obtain ⟨k0, e0⟩ := hd
    by_cases hlt : e0.expiration < t
    · obtain ⟨kt, heq, horig, hle, hmin⟩ := ih k0 e0.expiration
      refine ⟨kt, by simpa [oldestAcc, hlt] using heq, ?_, by omega, ?_⟩
      · rcases horig with ⟨h1, h2⟩ | ⟨p, hp, hh1, hh2⟩
        · exact Or.inr ⟨(k0, e0), by simp, by simp [h1], by simp [h2]⟩
        · exact Or.inr ⟨p, by simp [hp], hh1, hh2⟩
      · intro p hp
        rcases List.mem_cons.mp hp with heq' | hmem
        · rw [heq']; exact hle
        · exact hmin p hmem
    · obtain ⟨kt, heq, horig, hle, hmin⟩ := ih k t
      refine ⟨kt, by simpa [oldestAcc, hlt] using heq, ?_, hle, ?_⟩
      · rcases horig with hh | ⟨p, hp, hh1, hh2⟩
        · exact Or.inl hh
        · exact Or.inr ⟨p, by simp [hp], hh1, hh2⟩
      · intro p hp
        rcases List.mem_cons.mp hp with heq' | hmem
        · rw [heq']; show kt.2 ≤ e0.expiration; omega
        · exact hmin p hmem

theorem oldestAcc_none_spec {α : Type} (l : List (String × CacheEntry α)) (h : l ≠ []) :
    ∃ kt : String × Nat, oldestAcc none l = some kt
      ∧ (∃ p ∈ l, p.1 = kt.1 ∧ p.2.expiration = kt.2)
      ∧ ∀ p ∈ l, kt.2 ≤ p.2.expiration := by
  obtain ⟨hd, tl, rfl⟩ := List.exists_cons_of_ne_nil h
  obtain ⟨k0, e0⟩ := hd
  obtain ⟨kt, heq, horig, hle, hmin⟩ := oldestAcc_acc_spec tl k0 e0.expiration
  refine ⟨kt, by simpa [oldestAcc] using heq, ?_, ?_⟩
  · rcases horig with ⟨h1, h2⟩ | ⟨p, hp, hh1, hh2⟩
    · exact ⟨(k0, e0), by simp, by simp [h1], by simp [h2]⟩
    · exact ⟨p, by simp [hp], hh1, hh2⟩
  · intro p hp
    rcases List.mem_cons.mp hp with heq' | hmem
    · rw [heq']; exact hle
    · exact hmin p hmem

theorem oldestAcc_of_min {α : Type} :
    ∀ (l : List (String × CacheEntry α)) (k : String) (t : Nat),
    (∀ p ∈ l, t ≤ p.2.expiration) → oldestAcc (some (k, t)) l = some (k, t) := by
  intro l
  induction l with
  | nil => intro k t _; rfl
  | cons hd tl ih =>
    intro k t h
    obtain ⟨k0, e0⟩ := hd
    have h0 : t ≤ e0.expiration := h (k0, e0) (by simp)
    have hlt : ¬ e0.expiration < t := by omega
    simpa [oldestAcc, hlt] using ih k t (fun p hp => h p (by simp [hp]))

theorem setSeq_append {α : Type} (l1 l2 : List (String × α × Nat)) :
    ∀ (c : Cache α) (g : CacheGlobals),
    setSeq c g (l1 ++ l2) = setSeq (setSeq c g l1).1 (setSeq c g l1).2 l2 := by
  induction l1 with
  | nil => intro c g; rfl
  | cons hd tl ih =>
    intro c g
    obtain ⟨k, v, t⟩ := hd
    simp only [List.cons_append, setSeq]
    exact ih ((c.set k v t g).1) ((c.set k v t g).2)

theorem setSeq_fill {α : Type} :
    ∀ (ps : List (String × α × Nat)) (c : Cache α) (g : CacheGlobals),
    c.items.length + ps.length ≤ c.maxSize →
    (∀ p ∈ ps, ∀ q ∈ c.items, q.1 ≠ p.1) →
    (ps.map (fun p => p.1)).Nodup →
    setSeq c g ps
      = ({ c with items := c.items ++ ps.map (fun p => (p.1, ⟨p.2.1, p.2.2 + c.ttl⟩)) }, g) := by
  intro ps
  induction ps with
  | nil =>
    intro c g _ _ _
    simp [setSeq]
  | cons hd tl ih =>
    intro c g hlen hnew hnd
    obtain ⟨k, v, t⟩ := hd
    have hcap : ¬ c.maxSize ≤ c.items.length := by
      simp only [List.length_cons] at hlen
      omega
    have hknew : ∀ q ∈ c.items, q.1 ≠ k := fun q hq => hnew (k, v, t) (by simp) q hq
    have hset : c.set k v t g
        = ({ c with items := c.items ++ [(k, ⟨v, t + c.ttl⟩)] }, g) := by
      simp only [Cache.set, if_neg hcap]
      rw [assocSet_of_not_mem c.items k ⟨v, t + c.ttl⟩ hknew]
    have hknotin : k ∉ tl.map (fun p => p.1) := by
      simp only [List.map_cons, List.nodup_cons] at hnd
      exact hnd.1
    have ihres := ih { c with items := c.items ++ [(k, ⟨v, t + c.ttl⟩)] } g
      (by simp only [List.length_append, List.length_cons] at hlen ⊢; simpa using by omega)
      (by
        intro p hp q hq
        rcases List.mem_append.mp hq with hq1 | hq2
        · exact hnew p (by simp [hp]) q hq1
        · have hqk : q.1 = k := by
            have hq' : q = (k, ⟨v, t + c.ttl⟩) := by simpa using hq2
            rw [hq']
          rw [hqk]
          intro hcontra
          exact hknotin (by rw [hcontra]; exact List.mem_map_of_mem (fun p => p.1) hp))
      (by simp only [List.map_cons, List.nodup_cons] at hnd; exact hnd.2)
    simp only [setSeq, hset, ihres]
    simp [List.append_assoc]

theorem Cache.set_at_capacity {α : Type} (c : Cache α) (k : String) (v : α) (now : Nat)
    (g : CacheGlobals) (kt : String × Nat) (hcap : c.maxSize ≤ c.items.length)
    (hold : oldestAcc none c.items = some kt) :
    c.set k v now g
      = ({ c with items := assocSet (assocErase c.items kt.1) k ⟨v, now + c.ttl⟩ },
         { g with evicted := g.evicted + 1 }) := by
  simp only [Cache.set, if_pos hcap, evictOldestItems, hold]

/-- C5: a Set on a nonempty cache at or above capacity evicts exactly one
entry, the one whose expiration is earliest, counts one eviction, and
inserts the new entry into the remainder; and inserting maxSize + 1
distinct keys at increasing instants into a fresh cache with a uniform TTL
evicts exactly the first-inserted key. -/
theorem c5_evicts_earliest :
    (∀ (α : Type) (c : Cache α) (k : String) (v : α) (now : Nat) (g : CacheGlobals),
      c.items ≠ [] → c.maxSize ≤ c.items.length →
      ∃ kt : String × Nat,
        oldestAcc none c.items = some kt
        ∧ (∃ p ∈ c.items, p.1 = kt.1 ∧ p.2.expiration = kt.2)
        ∧ (∀ p ∈ c.items, kt.2 ≤ p.2.expiration)
        ∧ (c.set k v now g).1.items = assocSet (assocErase c.items kt.1) k ⟨v, now + c.ttl⟩
        ∧ (c.set k v now g).2 = { g with evicted := g.evicted + 1 }
        ∧ (assocErase c.items kt.1).length + 1 = c.items.length)
    ∧ (∀ (α : Type) (m : Nat) (key : Nat → String) (v : α) (ttl : Nat),
      1 ≤ m →
      (∀ i ∈ List.range (m + 1), ∀ j ∈ List.range (m + 1), key i = key j → i = j) →
      (setSeq (Cache.create m ttl : Cache α) ⟨0, 0, 0⟩
          ((List.range (m + 1)).map (fun i => (key i, v, i)))).1.items
        = ((List.range (m - 1)).map
            (fun i => (key (i + 1), (⟨v, (i + 1) + ttl⟩ : CacheEntry α))))
          ++ [(key m, ⟨v, m + ttl⟩)]
      ∧ (setSeq (Cache.create m ttl : Cache α) ⟨0, 0, 0⟩
          ((List.range (m + 1)).map (fun i => (key i, v, i)))).2.evicted = 1
      ∧ assocGet (setSeq (Cache.create m ttl : Cache α) ⟨0, 0, 0⟩
          ((List.range (m + 1)).map (fun i => (key i, v, i)))).1.items (key 0) = none) := by
  constructor
  · intro α c k v now g hne hcap
    obtain ⟨kt, hacc, hmem, hmin⟩ := oldestAcc_none_spec c.items hne
    have hset := Cache.set_at_capacity c k v now g kt hcap hacc
    refine ⟨kt, hacc, hmem, hmin, ?_, ?_, ?_⟩
    · rw [hset]
    · rw [hset]
    · exact assocErase_length_of_mem c.items kt.1
        (by obtain ⟨p, hp, h1, _⟩ := hmem; exact ⟨p, hp, h1⟩)
  · intro α m key v ttl hm hinj
    obtain ⟨m', rfl⟩ : ∃ m', m = m' + 1 := ⟨m - 1, by omega⟩
    have hinj' : ∀ i j, i ≤ m' + 1 → j ≤ m' + 1 → key i = key j → i = j := fun i j hi hj hk =>
      hinj i (List.mem_range.mpr (by omega)) j (List.mem_range.mpr (by omega)) hk
    have hfill := setSeq_fill ((List.range (m' + 1)).map (fun i => (key i, v, i)))
        (Cache.create (m' + 1) ttl : Cache α) ⟨0, 0, 0⟩
        (by simp [Cache.create])
        (by intro p hp q hq; simp [Cache.create] at hq)
        (by
          rw [List.map_map]
          exact (List.nodup_range (m' + 1)).map_on
            (fun x hx y hy hxy => hinj' x y (by have := List.mem_range.mp hx; omega)
              (by have := List.mem_range.mp hy; omega) hxy))
    have hc1 : setSeq (Cache.create (m' + 1) ttl : Cache α) ⟨0, 0, 0⟩
        ((List.range (m' + 1)).map (fun i => (key i, v, i)))
        = (⟨(List.range (m' + 1)).map (fun i => (key i, ⟨v, i + ttl⟩)), m' + 1, ttl⟩,
           ⟨0, 0, 0⟩) := by
      rw [hfill]
      simp only [Cache.create, List.nil_append, List.map_map]
      rfl
    have hsplit : (List.range (m' + 1 + 1)).map (fun i => ((key i : String), (v, i)))
        = ((List.range (m' + 1)).map (fun i => (key i, v, i)))
          ++ [(key (m' + 1), v, m' + 1)] := by
      rw [List.range_succ, List.map_append]
      rfl
    have hitems1cons : (List.range (m' + 1)).map
        (fun i => ((key i : String), (⟨v, i + ttl⟩ : CacheEntry α)))
        = (key 0, ⟨v, 0 + ttl⟩)
          :: (List.range m').map (fun i => (key (i + 1), ⟨v, (i + 1) + ttl⟩)) := by
      rw [List.range_succ_eq_map, List.map_cons, List.map_map]
      rfl
    have hmin : ∀ p ∈ (List.range m').map
        (fun i => ((key (i + 1) : String), (⟨v, (i + 1) + ttl⟩ : CacheEntry α))),
        0 + ttl ≤ p.2.expiration := by
      intro p hp
      obtain ⟨i, hi, rfl⟩ := List.mem_map.mp hp
      show 0 + ttl ≤ (i + 1) + ttl
      omega
    have hold : oldestAcc none ((List.range (m' + 1)).map
        (fun i => ((key i : String), (⟨v, i + ttl⟩ : CacheEntry α))))
        = some (key 0, 0 + ttl) := by
      rw [hitems1cons]
      show oldestAcc (some (key 0, 0 + ttl)) _ = _
      exact oldestAcc_of_min _ (key 0) (0 + ttl) hmin
    have hcap1 : (⟨(List.range (m' + 1)).map (fun i => (key i, ⟨v, i + ttl⟩)),
        m' + 1, ttl⟩ : Cache α).maxSize
        ≤ (⟨(List.range (m' + 1)).map (fun i => (key i, ⟨v, i + ttl⟩)),
            m' + 1, ttl⟩ : Cache α).items.length := by
      simp
    have hsetfin := Cache.set_at_capacity
        (⟨(List.range (m' + 1)).map (fun i => (key i, ⟨v, i + ttl⟩)), m' + 1, ttl⟩ : Cache α)
        (key (m' + 1)) v (m' + 1) ⟨0, 0, 0⟩ (key 0, 0 + ttl) hcap1 hold
    have herase : assocErase ((List.range (m' + 1)).map
        (fun i => ((key i : String), (⟨v, i + ttl⟩ : CacheEntry α)))) (key 0)
        = (List.range m').map (fun i => (key (i + 1), ⟨v, (i + 1) + ttl⟩)) := by
      rw [hitems1cons]
      simp [assocErase]
    have hnotin : ∀ q ∈ (List.range m').map
        (fun i => ((key (i + 1) : String), (⟨v, (i + 1) + ttl⟩ : CacheEntry α))),
        q.1 ≠ key (m' + 1) := by
      intro q hq
      obtain ⟨i, hi, rfl⟩ := List.mem_map.mp hq
      intro hcontra
      have hi' := List.mem_range.mp hi
      have := hinj' (i + 1) (m' + 1) (by omega) (le_refl _) hcontra
      omega
    have hsetapp := assocSet_of_not_mem
        ((List.range m').map (fun i => (key (i + 1), ⟨v, (i + 1) + ttl⟩)))
        (key (m' + 1)) (⟨v, (m' + 1) + ttl⟩ : CacheEntry α) hnotin
    have hstep : setSeq (⟨(List.range (m' + 1)).map (fun i => (key i, ⟨v, i + ttl⟩)),
        m' + 1, ttl⟩ : Cache α) ⟨0, 0, 0⟩ [(key (m' + 1), v, m' + 1)]
        = (⟨((List.range m').map (fun i => (key (i + 1), ⟨v, (i + 1) + ttl⟩)))
            ++ [(key (m' + 1), ⟨v, (m' + 1) + ttl⟩)], m' + 1, ttl⟩, ⟨0, 0, 1⟩) := by
      have h0 : setSeq (⟨(List.range (m' + 1)).map (fun i => (key i, ⟨v, i + ttl⟩)),
          m' + 1, ttl⟩ : Cache α) ⟨0, 0, 0⟩ [(key (m' + 1), v, m' + 1)]
          = (⟨(List.range (m' + 1)).map (fun i => (key i, ⟨v, i + ttl⟩)),
              m' + 1, ttl⟩ : Cache α).set (key (m' + 1)) v (m' + 1) ⟨0, 0, 0⟩ := rfl
      rw [h0, hsetfin, herase, hsetapp]
    rw [hsplit, setSeq_append, hc1, hstep]
    refine ⟨?_, rfl, ?_⟩
    · simp [Nat.add_sub_cancel]
    · apply (assocGet_eq_none_iff _ _).mpr
      intro p hp
      rcases List.mem_append.mp hp with hp1 | hp2
      · obtain ⟨i, hi, rfl⟩ := List.mem_map.mp hp1
        intro hcontra
        have := hinj' (i + 1) 0 (by have := List.mem_range.mp hi; omega) (by omega) hcontra
        omega
      · have hp' : p = (key (m' + 1), (⟨v, (m' + 1) + ttl⟩ : CacheEntry α)) := by
          simpa using hp2
        rw [hp']
        intro hcontra
        have := hinj' (m' + 1) 0 (le_refl _) (by omega) hcontra
        omega

/-- Witness for C5: a concrete at-capacity Set counts one eviction, and
inserting the three keys "0", "1", "2" into a fresh two-slot cache counts
exactly one eviction. -/
theorem c5_witness :
    ((⟨[("a", ⟨1, 3⟩), ("b", ⟨2, 7⟩)], 2, 5⟩ : Cache Nat).items ≠ [])
    ∧ (⟨[("a", ⟨1, 3⟩), ("b", ⟨2, 7⟩)], 2, 5⟩ : Cache Nat).maxSize
        ≤ (⟨[("a", ⟨1, 3⟩), ("b", ⟨2, 7⟩)], 2, 5⟩ : Cache Nat).items.length
    ∧ (((⟨[("a", ⟨1, 3⟩), ("b", ⟨2, 7⟩)], 2, 5⟩ : Cache Nat).set "c" 9 4 ⟨0, 0, 0⟩).2
        = { hits := 0, misses := 0, evicted := 1 })
    ∧ ((setSeq (Cache.create 2 10 : Cache Nat) ⟨0, 0, 0⟩
        ((List.range (2 + 1)).map (fun i => (Nat.repr i, 7, i)))).2.evicted = 1) := by
  have h1 := c5_evicts_earliest.1 Nat (⟨[("a", ⟨1, 3⟩), ("b", ⟨2, 7⟩)], 2, 5⟩ : Cache Nat)
      "c" 9 4 ⟨0, 0, 0⟩ (by decide) (by decide)
  have h2 := c5_evicts_earliest.2 Nat 2 Nat.repr 7 10 (by decide) (by decide)
  refine ⟨by decide, by decide, ?_, h2.2.1⟩
  obtain ⟨kt, _, _, _, _, h5, _⟩ := h1
  exact h5

/-- C10: for a cache with MaxSize at least one, every operation preserves
the bound size ≤ MaxSize (Set evicts before inserting when at capacity;
Delete and Clear only remove); the precondition is necessary, since with
MaxSize = 0 a single Set leaves one entry stored. -/
theorem c10_capacity_invariant :
    (∀ (α : Type) (c : Cache α) (k : String) (v : α) (now : Nat) (g : CacheGlobals),
      1 ≤ c.maxSize → c.items.length ≤ c.maxSize →
      (c.set k v now g).1.items.length ≤ c.maxSize)
    ∧ (∀ (α : Type) (c : Cache α) (k : String),
      c.items.length ≤ c.maxSize → (c.delete k).items.length ≤ c.maxSize)
    ∧ (∀ (α : Type) (c : Cache α), (c.clear).items.length ≤ c.maxSize)
    ∧ (∀ (k : String) (v : Nat) (ttl now : Nat) (g : CacheGlobals),
      ((Cache.create 0 ttl : Cache Nat).set k v now g).1.items.length = 1) := by
  refine ⟨?_, ?_, ?_, ?_⟩
  · intro α c k v now g hms hinv
    by_cases hcap : c.maxSize ≤ c.items.length
    · have hne : c.items ≠ [] := by
        intro h
        have hz : c.items.length = 0 := by rw [h]; rfl
        omega
      obtain ⟨kt, hacc, hmem, _⟩ := oldestAcc_none_spec c.items hne
      have hset := Cache.set_at_capacity c k v now g kt hcap hacc
      rw [hset]
      have hlen := assocErase_length_of_mem c.items kt.1
        (by obtain ⟨p, hp, h1, _⟩ := hmem; exact ⟨p, hp, h1⟩)
      have hsl := assocSet_length_le (assocErase c.items kt.1) k
        (⟨v, now + c.ttl⟩ : CacheEntry α)
      show (assocSet (assocErase c.items kt.1) k ⟨v, now + c.ttl⟩).length ≤ c.maxSize
      omega
    · have hset : c.set k v now g
          = ({ c with items := assocSet c.items k ⟨v, now + c.ttl⟩ }, g) := by
        simp only [Cache.set, if_neg hcap]
      rw [hset]
      have hsl := assocSet_length_le c.items k (⟨v, now + c.ttl⟩ : CacheEntry α)
      show (assocSet c.items k ⟨v, now + c.ttl⟩).length ≤ c.maxSize
      omega
  · intro α c k h
    have := assocErase_length_le c.items k
    show (assocErase c.items k).length ≤ c.maxSize
    omega
  · intro α c
    exact Nat.zero_le _
  · intro k v ttl now g
    rfl

/-- Witness for C10: the invariant holds on a concrete two-slot cache
under Set and Delete, and a MaxSize-0 cache holds one entry after one
Set. -/
theorem c10_witness :
    (1 ≤ (⟨[("a", ⟨1, 3⟩)], 2, 5⟩ : Cache Nat).maxSize)
    ∧ ((⟨[("a", ⟨1, 3⟩)], 2, 5⟩ : Cache Nat).items.length
        ≤ (⟨[("a", ⟨1, 3⟩)], 2, 5⟩ : Cache Nat).maxSize)
    ∧ (((⟨[("a", ⟨1, 3⟩)], 2, 5⟩ : Cache Nat).set "b" 4 9 ⟨0, 0, 0⟩).1.items.length
        ≤ (⟨[("a", ⟨1, 3⟩)], 2, 5⟩ : Cache Nat).maxSize)
    ∧ (((⟨[("a", ⟨1, 3⟩)], 2, 5⟩ : Cache Nat).delete "a").items.length
        ≤ (⟨[("a", ⟨1, 3⟩)], 2, 5⟩ : Cache Nat).maxSize)
    ∧ (((Cache.create 0 7 : Cache Nat).set "x" 1 0 ⟨0, 0, 0⟩).1.items.length = 1) := by
  refine ⟨by decide, by decide, ?_, ?_, ?_⟩
  · exact c10_capacity_invariant.1 Nat (⟨[("a", ⟨1, 3⟩)], 2, 5⟩ : Cache Nat)
      "b" 4 9 ⟨0, 0, 0⟩ (by decide) (by decide)
  · exact c10_capacity_invariant.2.1 Nat (⟨[("a", ⟨1, 3⟩)], 2, 5⟩ : Cache Nat) "a" (by decide)
  · exact c10_capacity_invariant.2.2.2 "x" 1 7 0 ⟨0, 0, 0⟩

/-- C3: the statistics counters are package-level vars shared by every
Cache instance, so they are not independent: with the counters at zero, a
single missed Get on instance A makes instance B's GetStats report one
miss, although B was never touched. -/
theorem c3_shared_counters_bug :
    ((Cache.create 10 5 : Cache Nat).getStats
        ((Cache.create 10 5 : Cache Nat).get "k" 0 ⟨0, 0, 0⟩).2).misses = 1
    ∧ ((Cache.create 10 5 : Cache Nat).getStats ⟨0, 0, 0⟩).misses = 0 :=
  ⟨rfl, rfl⟩

theorem mem_of_mem_takeWhile {γ : Type} (p : γ → Bool) :
    ∀ (l : List γ) (a : γ), a ∈ l.takeWhile p → a ∈ l := by
  intro l
  induction l with
  | nil => intro a h; simp at h
  | cons hd tl ih =>
    intro a h
    rw [List.takeWhile_cons] at h
    by_cases hp : p hd = true
    · rw [if_pos hp] at h
      rcases List.mem_cons.mp h with h1 | h2
      · simp [h1]
      · exact List.mem_cons_of_mem hd (ih a h2)
    · rw [if_neg hp] at h
      simp at h

theorem findDup_eq_none_iff :
    ∀ (ms : List Manager) (seen : List String),
    findDup ms seen = none
      ↔ ((ms.map (fun m => m.id)).Nodup ∧ ∀ i ∈ ms.map (fun m => m.id), i ∉ seen) := by
  intro ms
  induction ms with
  | nil => intro seen; simp [findDup]
  | cons m rest ih =>
    intro seen
    by_cases hmem : m.id ∈ seen
    · simp only [findDup, if_pos hmem]
      constructor
      · intro h; exact absurd h (by simp)
      · rintro ⟨_, h2⟩; exact absurd hmem (h2 m.id (by simp))
    · simp only [findDup, if_neg hmem]
      rw [ih (m.id :: seen)]
      constructor
      · rintro ⟨hnd, hni⟩
        refine ⟨?_, ?_⟩
        · simp only [List.map_cons, List.nodup_cons]
          exact ⟨fun hc => (hni m.id hc) (List.mem_cons_self m.id seen), hnd⟩
        · intro i hi
          simp only [List.map_cons, List.mem_cons] at hi
          rcases hi with rfl | hi
          · exact hmem
          · exact fun hc => hni i hi (List.mem_cons_of_mem _ hc)
      · rintro ⟨hnd, hni⟩
        have hnd2 : (m.id :: rest.map (fun m => m.id)).Nodup := by
          simpa only [List.map_cons] using hnd
        have hnd' := List.nodup_cons.mp hnd2
        refine ⟨hnd'.2, ?_⟩
        intro i hi hc
        rcases List.mem_cons.mp hc with rfl | hc2
        · exact hnd'.1 hi
        · exact hni i (by simp [hi]) hc2

theorem firstMissing_eq_none_iff (ids : List String) :
    ∀ (ds : List String), firstMissing ids ds = none ↔ ∀ d ∈ ds, d ∈ ids := by
  intro ds
  induction ds with
  | nil => simp [firstMissing]
  | cons d rest ih =>
    by_cases h : d ∈ ids
    · simp only [firstMissing, if_pos h]
      rw [ih]
      constructor
      · intro ha x hx
        rcases List.mem_cons.mp hx with rfl | hx2
        · exact h
        · exact ha x hx2
      · intro ha x hx; exact ha x (by simp [hx])
    · simp only [firstMissing, if_neg h]
      constructor
      · intro hc; exact absurd hc (by simp)
      · intro ha; exact absurd (ha d (by simp)) h

theorem findMissingDep_eq_none_iff (ids : List String) :
    ∀ (ms : List Manager), findMissingDep ids ms = none
      ↔ ∀ m ∈ ms, ∀ d ∈ m.dependencies, d ∈ ids := by
  intro ms
  induction ms with
  | nil => simp [findMissingDep]
  | cons m rest ih =>
    cases hfm : firstMissing ids m.dependencies with
    | some d =>
      simp only [findMissingDep, hfm]
      constructor
      · intro hc; exact absurd hc (by simp)
      · intro ha
        have hnone := (firstMissing_eq_none_iff ids m.dependencies).mpr (ha m (by simp))
        rw [hnone] at hfm
        exact absurd hfm (by simp)
    | none =>
      simp only [findMissingDep, hfm]
      rw [ih]
      constructor
      · intro ha x hx
        rcases List.mem_cons.mp hx with rfl | hx2
        · exact (firstMissing_eq_none_iff ids x.dependencies).mp hfm
        · exact ha x hx2
      · intro ha x hx; exact ha x (by simp [hx])

/-- C4: registering a manager set fails with the duplicate error whenever
two managers share an identifier (in any positions), fails with the
unsatisfied-dependency error whenever the identifiers are distinct but
some declared dependency is absent, and otherwise stores the managers;
AddManager re-validates both conditions against the current set. -/
theorem c4_registration_validation (ms : List Manager) (e : Engine) (nm : Manager) :
    (¬ (ms.map (fun m => m.id)).Nodup →
      ∃ d, withManagers ms e = Except.error (EngineError.duplicateManager d))
    ∧ ((ms.map (fun m => m.id)).Nodup →
      ((∃ m ∈ ms, ∃ d ∈ m.dependencies, d ∉ ms.map (fun x => x.id)) →
        ∃ a b, withManagers ms e = Except.error (EngineError.unsatisfiedDependency a b))
      ∧ ((∀ m ∈ ms, ∀ d ∈ m.dependencies, d ∈ ms.map (fun x => x.id)) →
        withManagers ms e = Except.ok { e with managers := ms }))
    ∧ (nm.id ∈ e.managers.map (fun m => m.id) →
      e.addManager nm = Except.error (EngineError.duplicateManager nm.id))
    ∧ (nm.id ∉ e.managers.map (fun m => m.id) →
      ((∃ d ∈ nm.dependencies, d ∉ e.managers.map (fun m => m.id)) →
        ∃ d, e.addManager nm = Except.error (EngineError.unsatisfiedDependency nm.id d))
      ∧ ((∀ d ∈ nm.dependencies, d ∈ e.managers.map (fun m => m.id)) →
        e.addManager nm = Except.ok { e with managers := e.managers ++ [nm] })) := by
  refine ⟨?_, ?_, ?_, ?_⟩
  · intro hdup
    cases hfd : findDup ms [] with
    | none => exact absurd ((findDup_eq_none_iff ms []).mp hfd).1 hdup
    | some d => exact ⟨d, by simp [withManagers, hfd]⟩
  · intro hnd
    have hfd : findDup ms [] = none := (findDup_eq_none_iff ms []).mpr ⟨hnd, by simp⟩
    constructor
    · rintro ⟨m, hm, d, hd, hnot⟩
      cases hmd : findMissingDep (ms.map (fun m => m.id)) ms with
      | none => exact absurd ((findMissingDep_eq_none_iff _ ms).mp hmd m hm d hd) hnot
      | some md => exact ⟨md.1, md.2, by simp [withManagers, hfd, hmd]⟩
    · intro hall
      have hmd : findMissingDep (ms.map (fun m => m.id)) ms = none :=
        (findMissingDep_eq_none_iff _ ms).mpr hall
      simp [withManagers, hfd, hmd]
  · intro hdup
    simp [Engine.addManager, hdup]
  · intro hdup
    constructor
    · rintro ⟨d, hd, hnot⟩
      cases hfm : firstMissing (e.managers.map (fun m => m.id)) nm.dependencies with
      | none => exact absurd ((firstMissing_eq_none_iff _ _).mp hfm d hd) hnot
      | some d' =>
        refine ⟨d', ?_⟩
        simp [Engine.addManager, hdup, hfm]
    · intro hall
      have hfm : firstMissing (e.managers.map (fun m => m.id)) nm.dependencies = none :=
        (firstMissing_eq_none_iff _ _).mpr hall
      simp [Engine.addManager, hdup, hfm]

/-- Witness for C4: a duplicated identifier is rejected, a valid set is
stored, and AddManager rejects a duplicate, rejects a missing dependency,
and accepts a satisfied one. -/
theorem c4_witness :
    (¬ (([mgrA, mgrA].map (fun m => m.id))).Nodup)
    ∧ (∃ d, withManagers [mgrA, mgrA] engineBlank
        = Except.error (EngineError.duplicateManager d))
    ∧ (withManagers [mgrA, mgrDep] engineBlank
        = Except.ok { engineBlank with managers := [mgrA, mgrDep] })
    ∧ (engineTwo.addManager mgrA = Except.error (EngineError.duplicateManager "alpha"))
    ∧ (∃ d, engineTwo.addManager mgrBad
        = Except.error (EngineError.unsatisfiedDependency "omega" d))
    ∧ (engineTwo.addManager mgrDep
        = Except.ok { engineTwo with managers := engineTwo.managers ++ [mgrDep] }) := by
  have h1 := c4_registration_validation [mgrA, mgrA] engineBlank mgrA
  have h2 := c4_registration_validation [mgrA, mgrDep] engineBlank mgrA
  have h3 := c4_registration_validation [] engineTwo mgrA
  have h4 := c4_registration_validation [] engineTwo mgrBad
  have h5 := c4_registration_validation [] engineTwo mgrDep
  refine ⟨by decide, h1.1 (by decide), (h2.2.1 (by decide)).2 (by decide),
    h3.2.2.1 (by decide), (h4.2.2.2 (by decide)).1 (by decide),
    (h5.2.2.2 (by decide)).2 (by decide)⟩

theorem runManagersInOrder_eq (mmap : List (String × Manager)) :
    ∀ (l : List String),
    runManagersInOrder mmap l
      = ((l.takeWhile (mgrOk mmap)).filter (mgrReg mmap)
          ++ (l.dropWhile (mgrOk mmap)).take 1,
         ((l.dropWhile (mgrOk mmap)).head?).map
           (fun i => EngineError.managerExecutionError i)) := by
  intro l
  induction l with
  | nil => rfl
  | cons mid rest ih =>
    cases hm : assocGet mmap mid with
    | none =>
      have hok : mgrOk mmap mid = true := by simp [mgrOk, hm]
      have hrg : mgrReg mmap mid = false := by simp [mgrReg, hm]
      simp only [runManagersInOrder, hm]
      rw [ih, List.takeWhile_cons, List.dropWhile_cons, hok]
      simp [List.filter_cons, hrg]
    | some m =>
      cases hpp : m.postProcessOk with
      | true =>
        have hok : mgrOk mmap mid = true := by simp [mgrOk, hm, hpp]
        have hrg : mgrReg mmap mid = true := by simp [mgrReg, hm]
        simp only [runManagersInOrder, hm, hpp]
        rw [ih, List.takeWhile_cons, List.dropWhile_cons, hok]
        simp [List.filter_cons, hrg]
      | false =>
        have hok : mgrOk mmap mid = false := by simp [mgrOk, hm, hpp]
        simp only [runManagersInOrder, hm, hpp]
        rw [List.takeWhile_cons, List.dropWhile_cons, hok]
        simp

theorem postProcess_after_resolution (e : Engine) (response : Fragment) (st : State)
    (a : Option Actor) (s : Option Session)
    (ha : e.actorStore response.actorID = Except.ok a)
    (hs : e.sessionStore response.sessionID = Except.ok s) :
    e.postProcess response st
      = { state := { st with output := some (createFragmentCopy response a s) },
          trace := (e.executeManagersInOrder).1,
          persisted := match (e.executeManagersInOrder).2 with
            | some _ => []
            | none => if e.upsertOk then [response] else [],
          error := match (e.executeManagersInOrder).2 with
            | some err => some err
            | none => if e.upsertOk then none else some EngineError.persistenceError } := by
  rcases hexec : e.executeManagersInOrder with ⟨tr, res⟩
  cases res <;> by_cases hup : e.upsertOk = true <;>
    simp [Engine.postProcess, ha, hs, hexec, hup]

/-- C2: under successful resolution of the response's actor and session,
and an execution order whose identifiers are all registered, PostProcess
invokes the managers' PostProcess callbacks exactly along the resolved
order (explicit order if set, else registration order) up to and
including the first failure; that failure surfaces tagged with the
failing manager's identifier and later managers are not invoked; the
response fragment is persisted only if every executed callback
succeeded. -/
theorem c2_postprocess_order (e : Engine) (response : Fragment) (st : State)
    (a : Option Actor) (s : Option Session)
    (ha : e.actorStore response.actorID = Except.ok a)
    (hs : e.sessionStore response.sessionID = Except.ok s)
    (hreg : ∀ i ∈ e.effectiveOrder, mgrReg (buildManagerMap e.managers) i = true) :
    (e.postProcess response st).trace
      = (e.effectiveOrder.takeWhile (mgrOk (buildManagerMap e.managers)))
        ++ ((e.effectiveOrder.dropWhile (mgrOk (buildManagerMap e.managers))).take 1)
    ∧ (∀ k, (e.effectiveOrder.dropWhile (mgrOk (buildManagerMap e.managers))).head? = some k →
        (e.postProcess response st).error = some (EngineError.managerExecutionError k)
        ∧ (e.postProcess response st).persisted = [])
    ∧ ((e.postProcess response st).persisted ≠ [] →
        (∀ i ∈ e.effectiveOrder, mgrOk (buildManagerMap e.managers) i = true)
        ∧ (e.postProcess response st).persisted = [response]) := by
  have hpost := postProcess_after_resolution e response st a s ha hs
  have hchar := runManagersInOrder_eq (buildManagerMap e.managers) e.effectiveOrder
  have hfilter : (e.effectiveOrder.takeWhile (mgrOk (buildManagerMap e.managers))).filter
      (mgrReg (buildManagerMap e.managers))
      = e.effectiveOrder.takeWhile (mgrOk (buildManagerMap e.managers)) :=
    List.filter_eq_self.mpr (fun i hi => hreg i (mem_of_mem_takeWhile _ _ i hi))
  have hexec : e.executeManagersInOrder
      = (e.effectiveOrder.takeWhile (mgrOk (buildManagerMap e.managers))
          ++ (e.effectiveOrder.dropWhile (mgrOk (buildManagerMap e.managers))).take 1,
         ((e.effectiveOrder.dropWhile (mgrOk (buildManagerMap e.managers))).head?).map
           (fun i => EngineError.managerExecutionError i)) := by
    rw [Engine.executeManagersInOrder, hchar, hfilter]
  refine ⟨?_, ?_, ?_⟩
  · rw [hpost, hexec]
  · intro k hk
    cases hdrop : e.effectiveOrder.dropWhile (mgrOk (buildManagerMap e.managers)) with
    | nil => rw [hdrop] at hk; exact absurd hk (by simp)
    | cons k0 tail =>
      rw [hdrop] at hk
      have hk0 : k0 = k := by simpa using hk
      subst hk0
      constructor
      · rw [hpost, hexec, hdrop]; simp
      · rw [hpost, hexec, hdrop]; simp
  · intro hne
    cases hdrop : e.effectiveOrder.dropWhile (mgrOk (buildManagerMap e.managers)) with
    | cons k0 tail =>
      exfalso
      apply hne
      rw [hpost, hexec, hdrop]
      simp
    | nil =>
      have hall : ∀ i ∈ e.effectiveOrder, mgrOk (buildManagerMap e.managers) i = true := by
        intro i hi
        exact List.dropWhile_eq_nil_iff.mp hdrop i hi
      refine ⟨hall, ?_⟩
      by_cases hup : e.upsertOk = true
      · rw [hpost, hexec, hdrop]
        simp [hup]
      · exfalso
        apply hne
        rw [hpost, hexec, hdrop]
        simp [hup]

/-- Witness for C2: on the three-manager engine with explicit order
(alpha, beta, gamma) where beta's PostProcess fails, exactly alpha and
beta run, the error names beta, and nothing is persisted. -/
theorem c2_witness :
    (engineThree.actorStore sampleFragment.actorID = Except.ok (some sampleActor))
    ∧ (engineThree.sessionStore sampleFragment.sessionID = Except.ok (some sampleSession))
    ∧ (∀ i ∈ engineThree.effectiveOrder, mgrReg (buildManagerMap engineThree.managers) i = true)
    ∧ (engineThree.postProcess sampleFragment newState).trace = ["alpha", "beta"]
    ∧ (engineThree.postProcess sampleFragment newState).error
        = some (EngineError.managerExecutionError "beta")
    ∧ (engineThree.postProcess sampleFragment newState).persisted = [] := by
  have h := c2_postprocess_order engineThree sampleFragment newState (some sampleActor)
      (some sampleSession) rfl rfl (by decide)
  refine ⟨rfl, rfl, by decide, ?_, ?_, ?_⟩
  · exact h.1.trans (by decide)
  · exact (h.2.1 "beta" (by decide)).1
  · exact (h.2.1 "beta" (by decide)).2

/-- C9: an explicit order that omits a registered manager passes
WithManagerOrder validation (only listed identifiers are checked for
registration), and PostProcess then silently never invokes the omitted
manager and reports no error when the listed managers succeed and the
write goes through. -/
theorem c9_unlisted_manager_skipped (e : Engine) (order : List String) (j : Manager)
    (hne : order ≠ [])
    (hreg : ∀ i ∈ order, i ∈ e.managers.map (fun m => m.id))
    (hj : j ∈ e.managers) (hjo : j.id ∉ order)
    (response : Fragment) (st : State) (a : Option Actor) (s : Option Session)
    (ha : e.actorStore response.actorID = Except.ok a)
    (hs : e.sessionStore response.sessionID = Except.ok s)
    (hok : ∀ i ∈ order, mgrOk (buildManagerMap e.managers) i = true)
    (hup : e.upsertOk = true) :
    withManagerOrder order e = Except.ok { e with managerOrder := order }
    ∧ j.id ∉ ({ e with managerOrder := order }.postProcess response st).trace
    ∧ ({ e with managerOrder := order }.postProcess response st).error = none := by
  have hfm : firstMissing (e.managers.map (fun m => m.id)) order = none :=
    (firstMissing_eq_none_iff _ _).mpr hreg
  have hwo : withManagerOrder order e = Except.ok { e with managerOrder := order } := by
    simp [withManagerOrder, hfm]
  have heff : ({ e with managerOrder := order } : Engine).effectiveOrder = order := by
    have hie : order.isEmpty = false := by
      cases order with
      | nil => exact absurd rfl hne
      | cons x xs => rfl
    simp [Engine.effectiveOrder, hie]
  have hdrop : order.dropWhile (mgrOk (buildManagerMap e.managers)) = [] :=
    List.dropWhile_eq_nil_iff.mpr hok
  have hchar := runManagersInOrder_eq (buildManagerMap e.managers) order
  have hexec : ({ e with managerOrder := order } : Engine).executeManagersInOrder
      = ((order.takeWhile (mgrOk (buildManagerMap e.managers))).filter
          (mgrReg (buildManagerMap e.managers)), none) := by
    show runManagersInOrder (buildManagerMap e.managers)
        (({ e with managerOrder := order } : Engine).effectiveOrder) = _
    rw [heff, hchar, hdrop]
    simp
  have hpost := postProcess_after_resolution ({ e with managerOrder := order } : Engine)
      response st a s ha hs
  refine ⟨hwo, ?_, ?_⟩
  · have htr : ({ e with managerOrder := order }.postProcess response st).trace
        = (order.takeWhile (mgrOk (buildManagerMap e.managers))).filter
          (mgrReg (buildManagerMap e.managers)) := by
      rw [hpost, hexec]
    rw [htr]
    intro hmem
    have h1 : j.id ∈ order.takeWhile (mgrOk (buildManagerMap e.managers)) :=
      List.mem_of_mem_filter hmem
    exact hjo (mem_of_mem_takeWhile _ _ j.id h1)
  · rw [hpost, hexec]
    simp [hup]

/-- Witness for C9: on the two-manager engine, the order list naming only
alpha validates, runs alpha alone, leaves gamma uninvoked, and reports no
error. -/
theorem c9_witness :
    (["alpha"] ≠ ([] : List String))
    ∧ (∀ i ∈ ["alpha"], i ∈ engineTwo.managers.map (fun m => m.id))
    ∧ (mgrC ∈ engineTwo.managers)
    ∧ (mgrC.id ∉ ["alpha"])
    ∧ withManagerOrder ["alpha"] engineTwo
        = Except.ok { engineTwo with managerOrder := ["alpha"] }
    ∧ mgrC.id ∉ ({ engineTwo with managerOrder := ["alpha"] }.postProcess
        sampleFragment newState).trace
    ∧ ({ engineTwo with managerOrder := ["alpha"] }.postProcess
        sampleFragment newState).error = none := by
  have h := c9_unlisted_manager_skipped engineTwo ["alpha"] mgrC (by decide) (by decide)
      (by decide) (by decide) sampleFragment newState (some sampleActor) (some sampleSession)
      rfl rfl (by decide) rfl
  exact ⟨by decide, by decide, by decide, by decide, h.1, h.2.1, h.2.2⟩

/-- C1 counterexample: with every manager's Process succeeding (an empty
manager set), resolution succeeding, but the fragment store rejecting the
write, Engine.Process returns an error and persists nothing — refuting
the claim that manager success alone implies a persisted fragment and no
error. -/
theorem c1_counterexample :
    engineStoreDown.managers.all (fun m => m.processOk) = true
    ∧ (engineStoreDown.process { newState with input := some sampleFragment }).error
        = some EngineError.persistenceError
    ∧ (engineStoreDown.process { newState with input := some sampleFragment }).persisted
        = [] := by
  refine ⟨rfl, ?_, ?_⟩ <;> rfl

/-- C1 (amended): under successful actor and session resolution, a failing
manager Process makes Engine.Process return an error with nothing
persisted; when every manager succeeds, the engine attempts the write: a
successful write persists the enriched copy exactly once with no error,
and a failing write returns the persistence error with nothing
persisted. -/
theorem c1_process_gate (e : Engine) (st : State) (f : Fragment)
    (a : Option Actor) (s : Option Session)
    (hin : st.input = some f)
    (ha : e.actorStore f.actorID = Except.ok a)
    (hs : e.sessionStore f.sessionID = Except.ok s) :
    ((¬ e.managers.all (fun m => m.processOk) = true) →
      (e.process st).error = some EngineError.processPhaseError
      ∧ (e.process st).persisted = [])
    ∧ (e.managers.all (fun m => m.processOk) = true →
      (e.upsertOk = true →
        (e.process st).persisted = [createFragmentCopy f a s]
        ∧ (e.process st).error = none)
      ∧ (e.upsertOk = false →
        (e.process st).error = some EngineError.persistenceError
        ∧ (e.process st).persisted = [])) := by
  refine ⟨?_, ?_⟩
  · intro hfail
    have hb : e.managers.all (fun m => m.processOk) = false := by
      cases hall : e.managers.all (fun m => m.processOk) with
      | false => rfl
      | true => exact absurd hall hfail
    constructor <;> simp [Engine.process, hin, ha, hs, hb]
  · intro hall
    constructor
    · intro hup
      constructor <;> simp [Engine.process, hin, ha, hs, hall, hup]
    · intro hup
      constructor <;> simp [Engine.process, hin, ha, hs, hall, hup]

/-- Witness for C1: the failing-manager engine errors without persisting,
and the all-successful engine persists the enriched copy once with no
error. -/
theorem c1_witness :
    (({ newState with input := some sampleFragment } : State).input = some sampleFragment)
    ∧ (¬ engineFailing.managers.all (fun m => m.processOk) = true)
    ∧ (engineFailing.process { newState with input := some sampleFragment }).error
        = some EngineError.processPhaseError
    ∧ (engineFailing.process { newState with input := some sampleFragment }).persisted = []
    ∧ (engineThree.managers.all (fun m => m.processOk) = true)
    ∧ (engineThree.process { newState with input := some sampleFragment }).persisted
        = [createFragmentCopy sampleFragment (some sampleActor) (some sampleSession)]
    ∧ (engineThree.process { newState with input := some sampleFragment }).error = none := by
  have h1 := c1_process_gate engineFailing { newState with input := some sampleFragment }
      sampleFragment (some sampleActor) (some sampleSession) rfl rfl rfl
  have h2 := c1_process_gate engineThree { newState with input := some sampleFragment }
      sampleFragment (some sampleActor) (some sampleSession) rfl rfl rfl
  exact ⟨rfl, by decide, (h1.1 (by decide)).1, (h1.1 (by decide)).2, by decide,
    ((h2.2 (by decide)).1 rfl).1, ((h2.2 (by decide)).1 rfl).2⟩

theorem composeSections_all_ok {PT : Type}
    (parse : List String → String → Except String PT)
    (exec : PT → List (String × Value) → Except String String)
    (helpers : List String) (data : List (String × Value)) :
    ∀ (secs : List PromptSection),
    (∀ sec ∈ secs, isOkE (renderSection parse exec helpers data sec) = true) →
    ∃ msgs, composeSections parse exec helpers data secs = Except.ok msgs
      ∧ List.Forall₂
          (fun sec msg => renderSection parse exec helpers data sec = Except.ok msg)
          secs msgs := by
  intro secs
  induction secs with
  | nil => intro _; exact ⟨[], rfl, List.Forall₂.nil⟩
  | cons sec rest ih =>
    intro hall
    have h1 : isOkE (renderSection parse exec helpers data sec) = true := hall sec (by simp)
    cases hrs : renderSection parse exec helpers data sec with
    | error e => rw [hrs] at h1; simp [isOkE] at h1
    | ok msg =>
      obtain ⟨msgs, hcomp, hfa⟩ := ih (fun s hs => hall s (by simp [hs]))
      refine ⟨msg :: msgs, ?_, List.Forall₂.cons hrs hfa⟩
      simp [composeSections, hrs, hcomp]

theorem composeSections_first_error {PT : Type}
    (parse : List String → String → Except String PT)
    (exec : PT → List (String × Value) → Except String String)
    (helpers : List String) (data : List (String × Value)) :
    ∀ (pre : List PromptSection) (sec : PromptSection) (post : List PromptSection)
      (e : ComposeError),
    (∀ s ∈ pre, isOkE (renderSection parse exec helpers data s) = true) →
    renderSection parse exec helpers data sec = Except.error e →
    composeSections parse exec helpers data (pre ++ sec :: post) = Except.error e := by
  intro pre
  induction pre with
  | nil =>
    intro sec post e _ hre
    simp [composeSections, hre]
  | cons s0 rest ih =>
    intro sec post e hall hre
    have h0 : isOkE (renderSection parse exec helpers data s0) = true := hall s0 (by simp)
    cases hr0 : renderSection parse exec helpers data s0 with
    | error e0 => rw [hr0] at h0; simp [isOkE] at h0
    | ok m0 =>
      have hrest := ih sec post e (fun s hs => hall s (by simp [hs])) hre
      simp [composeSections, hr0, hrest]

/-- C6 counterexample: with the sticky error set by a missing
manager-data key, the subsequent builder call WithTools is not a no-op —
it appends to the shared State's tool list — refuting the claim that
every subsequent builder call is a no-op. -/
theorem c6_counterexample :
    (((newPromptBuilder newState).withManagerData "missing").err.isSome = true)
    ∧ ((((newPromptBuilder newState).withManagerData "missing").withTools
        ["tool-1"]).state.tools = ["tool-1"])
    ∧ (((newPromptBuilder newState).withManagerData "missing").state.tools = []) :=
  ⟨rfl, rfl, rfl⟩

/-- C6 (amended): a missing manager-data key sets the sticky error; under
a sticky error the section, helper and manager-data builder calls are
no-ops propagating the same error and Compose returns that error with no
messages, while WithTools still appends tools to the shared State; with
no sticky error and every section rendering, Compose yields one message
per section in order. -/
theorem c6_sticky_poison {PT : Type}
    (parse : List String → String → Except String PT)
    (exec : PT → List (String × Value) → Except String String)
    (st : State) (key : String) (hmiss : st.getManagerData key = none)
    (tb' : PromptBuilder) (m : String) (he : tb'.err = some m)
    (n : String) (role : Role) (t nm k : String) (ts : List String)
    (tb : PromptBuilder) (hok : tb.err = none)
    (hsec : ∀ sec ∈ tb.sections,
      isOkE (renderSection parse exec tb.helpers (buildData tb) sec) = true) :
    ((newPromptBuilder st).withManagerData key).err
      = some ("manager data for key " ++ key ++ " not found")
    ∧ tb'.withHelper n = tb'
    ∧ tb'.addSectionWithName role t nm = tb'
    ∧ tb'.withManagerData k = tb'
    ∧ tb'.compose parse exec = Except.error (ComposeError.sticky m)
    ∧ (tb'.withTools ts).state.tools = tb'.state.tools ++ ts
    ∧ (tb'.withTools ts).err = some m
    ∧ ∃ msgs, tb.compose parse exec = Except.ok msgs
        ∧ List.Forall₂
            (fun sec msg =>
              renderSection parse exec tb.helpers (buildData tb) sec = Except.ok msg)
            tb.sections msgs := by
  have hsome : tb'.err.isSome = true := by rw [he]; rfl
  refine ⟨?_, ?_, ?_, ?_, ?_, ?_, ?_, ?_⟩
  · simp [PromptBuilder.withManagerData, newPromptBuilder, State.getManagerData] at hmiss ⊢
    simp [hmiss]
  · simp [PromptBuilder.withHelper, hsome]
  · simp [PromptBuilder.addSectionWithName, hsome]
  · simp [PromptBuilder.withManagerData, hsome]
  · simp [PromptBuilder.compose, he]
  · simp [PromptBuilder.withTools]
  · simp [PromptBuilder.withTools, he]
  · obtain ⟨msgs, hcomp, hfa⟩ :=
      composeSections_all_ok parse exec tb.helpers (buildData tb) tb.sections hsec
    exact ⟨msgs, by simp [PromptBuilder.compose, hok, hcomp], hfa⟩

/-- Witness for C6: the missing key "missing" poisons a fresh builder, and
the two-section builder over the bound state composes into exactly two
messages in section order with the bound value substituted. -/
theorem c6_witness :
    (sampleState.getManagerData "missing" = none)
    ∧ (((newPromptBuilder sampleState).withManagerData "missing").err
        = some ("manager data for key " ++ "missing" ++ " not found"))
    ∧ (sampleBuilder.compose echoParse lookupExec
        = Except.ok [⟨Role.system, "hello", "", none⟩, ⟨Role.user, "plain", "bob", none⟩]) := by
  have h := c6_sticky_poison echoParse lookupExec sampleState "missing" rfl
      ((newPromptBuilder newState).withManagerData "missing")
      ("manager data for key " ++ "missing" ++ " not found") rfl
      "helper" Role.system "tmpl" "nm" "k" ["tool-1"] sampleBuilder rfl (by decide)
  exact ⟨rfl, h.1, rfl⟩

/-- C7 counterexample: a template-parse failure aborts Compose with an
error that names no role, refuting the claim that parse failures surface
an error identifying the offending section's role. -/
theorem c7_counterexample :
    (((newPromptBuilder newState).addSystemSection "greeting").compose failParse lookupExec
      = Except.error (ComposeError.parseError "unclosed action"))
    ∧ composeErrorRole (ComposeError.parseError "unclosed action") = none :=
  ⟨rfl, rfl⟩

/-- C7 (amended): the first section whose template fails to parse or to
render aborts the whole composition with an error and no messages — not
even from earlier successfully rendered sections; a render failure's
error identifies the offending section's role, while a parse failure's
error names no role. -/
theorem c7_render_failure_aborts {PT : Type}
    (parse : List String → String → Except String PT)
    (exec : PT → List (String × Value) → Except String String)
    (tb : PromptBuilder) (hok : tb.err = none)
    (pre : List PromptSection) (sec : PromptSection) (post : List PromptSection)
    (hsecs : tb.sections = pre ++ sec :: post)
    (hpre : ∀ s ∈ pre, isOkE (renderSection parse exec tb.helpers (buildData tb) s) = true) :
    (∀ msgp, parse tb.helpers sec.template = Except.error msgp →
      tb.compose parse exec = Except.error (ComposeError.parseError msgp)
      ∧ composeErrorRole (ComposeError.parseError msgp) = none)
    ∧ (∀ t msge, parse tb.helpers sec.template = Except.ok t →
      exec t (buildData tb) = Except.error msge →
      tb.compose parse exec = Except.error (ComposeError.execError sec.role msge)
      ∧ composeErrorRole (ComposeError.execError sec.role msge) = some sec.role) := by
  constructor
  · intro msgp hp
    have hre : renderSection parse exec tb.helpers (buildData tb) sec
        = Except.error (ComposeError.parseError msgp) := by
      simp [renderSection, hp]
    have habort := composeSections_first_error parse exec tb.helpers (buildData tb)
        pre sec post (ComposeError.parseError msgp) hpre hre
    exact ⟨by simp [PromptBuilder.compose, hok, hsecs, habort], rfl⟩
  · intro t msge hp hx
    have hre : renderSection parse exec tb.helpers (buildData tb) sec
        = Except.error (ComposeError.execError sec.role msge) := by
      simp [renderSection, hp, hx]
    have habort := composeSections_first_error parse exec tb.helpers (buildData tb)
        pre sec post (ComposeError.execError sec.role msge) hpre hre
    exact ⟨by simp [PromptBuilder.compose, hok, hsecs, habort], rfl⟩

/-- Witness for C7: on the two-section builder whose first section renders
fine, a render failure in the second section aborts the composition with
an error naming the second section's role and no messages. -/
theorem c7_witness :
    (sampleBuilder2.err = none)
    ∧ (sampleBuilder2.sections
        = [⟨Role.system, "k1", ""⟩] ++ (⟨Role.user, "boom", "bob"⟩ : PromptSection) :: [])
    ∧ (sampleBuilder2.compose echoParse (failExecOn "boom")
        = Except.error (ComposeError.execError Role.user "helper failed"))
    ∧ (composeErrorRole (ComposeError.execError Role.user "helper failed") = some Role.user) := by
  have h := c7_render_failure_aborts echoParse (failExecOn "boom") sampleBuilder2 rfl
      [⟨Role.system, "k1", ""⟩] ⟨Role.user, "boom", "bob"⟩ [] rfl (by decide)
  have h2 := h.2 "boom" "helper failed" rfl rfl
  exact ⟨rfl, rfl, h2.1, h2.2⟩
